import Mathlib

/-!
Verification of the Mural checkout demo backend.

Shallow embedding of the Go sources: the order store (`internal/models`,
`OrderStore`), the HTTP handlers (`internal/handlers/app.go`) and the
relevant parts of the Mural client types (`internal/mural`).

Modelling conventions:
* money amounts (Go `float64`) are rationals `ℚ`;
* instants (`time.Time`) are integers `ℤ`, where `0` stands for Go's zero
  `time.Time` (the value for which `IsZero()` returns `true`) and
  `t.Before(u)` is `t < u`;
* the orders table is a `List Order` kept in the order returned by
  `OrderStore.ListAll` (`ORDER BY created_at DESC`, newest first; `Create`
  timestamps rows with `NOW()`, so a freshly created row is prepended);
* `uuid.UUID` values are strings, `uuid.Nil` is `none` in an `Option`.
-/

namespace MuralDemo

/-- Order status enumeration, `models.OrderStatus`. -/
inductive OrderStatus
  | pendingPayment
  | paid
  | withdrawn
  | payoutError
deriving DecidableEq, Repr

/-- One line item, `models.OrderItem` (`Quantity` is a Go `int`). -/
structure OrderItem where
  productID : String
  name : String
  priceUSDC : ℚ
  quantity : Int
deriving DecidableEq, Repr

/-- A persisted order row, `models.Order`.  `payoutRequestID = none` models
`uuid.Nil` (column NULL). -/
structure Order where
  id : Nat
  customerName : String
  customerEmail : String
  items : List OrderItem
  amountUSDC : ℚ
  amountCOP : ℚ
  status : OrderStatus
  payoutRequestID : Option String
  payoutStatus : String
  createdAt : Int
deriving DecidableEq, Repr

/-- SQL `COALESCE` of a possibly-NULL parameter with a column value. -/
def sqlCoalesce (param : Option ℚ) (col : ℚ) : ℚ := param.getD col

/-- How pgx binds the Go `float64` argument of `OrderStore.UpdateStatus` as the
SQL parameter `$3`: a plain (non-pointer) `float64` is always a non-NULL
numeric value. -/
def goFloat64Param (v : ℚ) : Option ℚ := some v

/-- Effect of `OrderStore.UpdateStatus` on the matched row:
`SET status=$2, amount_cop=COALESCE($3, amount_cop)` with `$3` bound from the
`float64` argument `amountCOP`. -/
def updateStatusRow (o : Order) (status : OrderStatus) (amountCOP : ℚ) : Order :=
  { o with status := status, amountCOP := sqlCoalesce (goFloat64Param amountCOP) o.amountCOP }

/-- `OrderStore.UpdateStatus`: single-row `UPDATE ... WHERE id=$1` over the table. -/
def updateStatus (orders : List Order) (id : Nat) (status : OrderStatus) (amountCOP : ℚ) :
    List Order :=
  orders.map fun o => if o.id = id then updateStatusRow o status amountCOP else o

/-- `OrderStore.UpdatePayoutMetadata`: stores the payout request id and status. -/
def updatePayoutMetadata (orders : List Order) (id : Nat) (payoutRequestID : String)
    (payoutStatus : String) : List Order :=
  orders.map fun o =>
    if o.id = id then
      { o with payoutRequestID := some payoutRequestID, payoutStatus := payoutStatus }
    else o

/-- `OrderStore.GetByID` (`SELECT ... WHERE id=$1`). -/
def getByID (orders : List Order) (id : Nat) : Option Order :=
  orders.find? fun o => o.id == id

/-- `OrderStore.ListAll` (`ORDER BY created_at DESC`): the table is already kept
in that order. -/
def listAll (orders : List Order) : List Order := orders

/-- A previously persisted order with a non-null fiat estimate
(`amount_cop = 40000`), used as the concrete failing input for C1. -/
def estimatedOrder : Order :=
  { id := 1, customerName := "Ada", customerEmail := "", items := [],
    amountUSDC := 10, amountCOP := 40000, status := .paid,
    payoutRequestID := none, payoutStatus := "", createdAt := 100 }

/-- C1, failing-input evaluation: the fiat-estimate update path
`OrderStore.UpdateStatus` called with the "no new estimate" argument `0`
(exactly as the call sites in `handleMuralWebhook` and
`simulatePaymentLifecycle` call it) overwrites a previously persisted non-null
`amount_cop = 40000` with `0`, because the Go `float64` parameter is bound as a
non-NULL SQL value, so `COALESCE($3, amount_cop)` always selects `$3`.  The
claim (and the intent documented by the `COALESCE` idiom itself) requires the
stored value to be kept. -/
theorem updateStatus_zero_clobbers_estimate :
    estimatedOrder.amountCOP = 40000 ∧
    (updateStatusRow estimatedOrder .paid 0).amountCOP = 0 ∧
    updateStatus [estimatedOrder] 1 .paid 0 =
      [{ estimatedOrder with amountCOP := 0 }] ∧
    (0 : ℚ) ≠ 40000 := by
  refine ⟨rfl, rfl, ?_, by norm_num⟩
  simp [updateStatus, updateStatusRow, sqlCoalesce, goFloat64Param, estimatedOrder]

/-- `strings.EqualFold` restricted to ASCII case folding (all symbols compared
in this code base are plain ASCII such as "USDC"). -/
def eqFold (a b : String) : Bool :=
  a.data.map Char.toLower == b.data.map Char.toLower

/-- A provider transaction record, `mural.Transaction` (fields used by the
deposit-watch loop; `executedAt = 0` models a zero `time.Time`). -/
structure Tx where
  txId : String
  memo : String
  direction : String
  executedAt : Int
  amount : ℚ
  symbol : String
deriving DecidableEq, Repr

/-- `const amountTolerance = 0.000001` in `simulatePaymentLifecycle`. -/
def amountTolerance : ℚ := 1 / 1000000

/-- The per-record filter of the polling loop in `simulatePaymentLifecycle`:
skip a record with a non-zero executed time before the order's creation, skip a
record whose symbol is not (case-insensitively) "USDC", and otherwise match
when the amount is within `amountTolerance` of the order's USDC total. -/
def txMatch (createdAt : Int) (amountUSDC : ℚ) (tx : Tx) : Bool :=
  if tx.executedAt ≠ 0 ∧ tx.executedAt < createdAt then false
  else if eqFold tx.symbol "USDC" = false then false
  else decide (|tx.amount - amountUSDC| ≤ amountTolerance)

/-- The loop takes the first record of the page that passes all three checks. -/
def firstMatch (createdAt : Int) (amountUSDC : ℚ) (txs : List Tx) : Option Tx :=
  txs.find? (txMatch createdAt amountUSDC)

theorem txMatch_true_iff (createdAt : Int) (amountUSDC : ℚ) (tx : Tx) :
    txMatch createdAt amountUSDC tx = true ↔
      ¬(tx.executedAt ≠ 0 ∧ tx.executedAt < createdAt) ∧
      eqFold tx.symbol "USDC" = true ∧
      |tx.amount - amountUSDC| ≤ amountTolerance := by
  unfold txMatch
  by_cases h1 : tx.executedAt ≠ 0 ∧ tx.executedAt < createdAt
  · simp [h1]
  · by_cases h2 : eqFold tx.symbol "USDC" = false
    · simp [h1, h2]
    · simp only [Bool.not_eq_false] at h2
      simp [h1, h2]

/-- A record whose executed time is Go's zero `time.Time`: it precedes the
order's creation time (creation at instant 100), yet the filter accepts it. -/
def zeroTimeTx : Tx :=
  { txId := "t0", memo := "", direction := "DEPOSIT", executedAt := 0,
    amount := 10, symbol := "USDC" }

/-- C3, counterexample: the claim states that the match predicate rejects every
record whose executed time precedes the order's creation time, regardless of
amount.  `zeroTimeTx` has executed time `0` (the zero `time.Time`), which
precedes the order's creation instant `100`, and an in-tolerance amount — and
the code accepts it, because the `ExecutedAt.IsZero()` guard exempts zero
executed times from the staleness check. -/
theorem txMatch_zero_time_counterexample :
    zeroTimeTx.executedAt < 100 ∧ txMatch 100 10 zeroTimeTx = true := by
  refine ⟨by decide, ?_⟩
  rw [txMatch_true_iff]
  refine ⟨by simp [zeroTimeTx], by decide, by simp [zeroTimeTx, amountTolerance]⟩

/-- C3 (amended): the deposit-watch match predicate rejects a record whose
executed time is non-zero and precedes the order's creation time regardless of
its amount, rejects a record whose asset symbol does not case-insensitively
equal USDC regardless of amount and time, and accepts the first record (in page
order) that passes both rejections and whose amount differs from the order's
expected amount by at most the absolute tolerance 1e-6. -/
theorem txMatch_filter_spec (createdAt : Int) (amountUSDC : ℚ) (tx : Tx) :
    (tx.executedAt ≠ 0 → tx.executedAt < createdAt →
      txMatch createdAt amountUSDC tx = false) ∧
    (eqFold tx.symbol "USDC" = false → txMatch createdAt amountUSDC tx = false) ∧
    (¬(tx.executedAt ≠ 0 ∧ tx.executedAt < createdAt) →
      eqFold tx.symbol "USDC" = true →
      |tx.amount - amountUSDC| ≤ amountTolerance →
      txMatch createdAt amountUSDC tx = true) ∧
    (∀ pre post, (∀ t ∈ pre, txMatch createdAt amountUSDC t = false) →
      txMatch createdAt amountUSDC tx = true →
      firstMatch createdAt amountUSDC (pre ++ tx :: post) = some tx) := by
  refine ⟨?_, ?_, ?_, ?_⟩
  · intro h1 h2
    simp [txMatch, h1, h2]
  · intro h
    simp [txMatch, h]
  · intro h1 h2 h3
    rw [txMatch_true_iff]
    exact ⟨h1, h2, h3⟩
  · intro pre post hpre htx
    induction pre with
    | nil => simp [firstMatch, List.find?_cons, htx]
    | cons p ps ih =>
        have hp : txMatch createdAt amountUSDC p = false := hpre p (by simp)
        have ihs := ih fun t ht => hpre t (by simp [ht])
        simpa [firstMatch, List.find?_cons, hp] using ihs

/-- A record matching the spec's concrete example: amount `10.0000005`,
symbol `USDC`, executed 10 seconds after the order's creation instant `100`. -/
def exampleTx : Tx :=
  { txId := "t1", memo := "", direction := "DEPOSIT", executedAt := 110,
    amount := 100000005 / 10000000, symbol := "USDC" }

/-- C3, witness: the amended filter properties at concrete inputs, including
the spec's worked example (order amount `10.000000` created at `T = 100`; a
record of `10.0000005` USDC executed at `T + 10` is accepted; a record executed
at `T - 1` is rejected; a `USDT` record is rejected). -/
theorem txMatch_filter_spec_witness :
    txMatch 100 10 { exampleTx with executedAt := 99 } = false ∧
    txMatch 100 10 { exampleTx with symbol := "USDT" } = false ∧
    txMatch 100 10 exampleTx = true ∧
    firstMatch 100 10 [{ exampleTx with symbol := "USDT" }, exampleTx] = some exampleTx := by
  have h1 := (txMatch_filter_spec 100 10 { exampleTx with executedAt := 99 }).1
    (by simp [exampleTx]) (by norm_num [exampleTx])
  have h2 := (txMatch_filter_spec 100 10 { exampleTx with symbol := "USDT" }).2.1 (by decide)
  have h3 := (txMatch_filter_spec 100 10 exampleTx).2.2.1
    (by simp [exampleTx]) (by decide) (by norm_num [exampleTx, amountTolerance, abs_le])
  have h4 := (txMatch_filter_spec 100 10 exampleTx).2.2.2
    [{ exampleTx with symbol := "USDT" }] [] (by simpa using h2) h3
  exact ⟨h1, h2, h3, h4⟩

/-- C10: the deposit-watch match predicate never examines a record's
`Direction` field, and a record with a zero executed-at timestamp is accepted
whenever its symbol case-insensitively equals USDC and its amount is within
tolerance of the order amount; in particular this holds for an outgoing
(payout-direction) record. -/
theorem txMatch_ignores_direction_and_zero_time (createdAt : Int) (amountUSDC : ℚ)
    (tx : Tx) (d : String) :
    txMatch createdAt amountUSDC { tx with direction := d } =
      txMatch createdAt amountUSDC tx ∧
    (tx.executedAt = 0 → eqFold tx.symbol "USDC" = true →
      |tx.amount - amountUSDC| ≤ amountTolerance →
      txMatch createdAt amountUSDC tx = true) := by
  refine ⟨rfl, ?_⟩
  intro h0 hs ha
  rw [txMatch_true_iff]
  exact ⟨by simp [h0], hs, ha⟩

/-- C10, witness: an outgoing (`PAYOUT` direction) record with a zero
executed-at timestamp, symbol `USDC` and an exactly matching amount is
accepted as a deposit match. -/
theorem txMatch_ignores_direction_and_zero_time_witness :
    txMatch 100 10 { zeroTimeTx with direction := "PAYOUT" } = txMatch 100 10 zeroTimeTx ∧
    txMatch 100 10 { zeroTimeTx with direction := "PAYOUT" } = true := by
  have h := txMatch_ignores_direction_and_zero_time 100 10 zeroTimeTx "PAYOUT"
  have h2 := h.2 (by simp [zeroTimeTx]) (by decide)
    (by norm_num [zeroTimeTx, amountTolerance])
  exact ⟨h.1, h.1.trans h2⟩

/-- `mural.TokenAmount`. -/
structure TokenAmount where
  tokenAmount : ℚ
  tokenSymbol : String
deriving DecidableEq, Repr

/-- `muralWebhookEnvelope`: the parts of the webhook body the handler decodes. -/
structure WebhookEnvelope where
  eventCategory : String
  payloadType : String
  accountId : String
  tokenAmount : TokenAmount
deriving DecidableEq, Repr

/-- HTTP response statuses used by the handlers. -/
inductive HttpStatus
  | ok
  | created
  | noContent
  | badRequest
  | unauthorized
  | notFound
  | internalError
  | serviceUnavailable
deriving DecidableEq, Repr

/-- An inbound webhook request: the three `x-mural-webhook-*` headers (a Go
`Header.Get` returns `""` for a missing header) and the raw body. -/
structure WebhookRequest where
  sigHeader : String
  sigVersionHeader : String
  tsHeader : String
  body : String
deriving DecidableEq, Repr

/-- The cryptographic and parsing collaborators of `handleMuralWebhook`,
abstracted as functions: `base64.StdEncoding.DecodeString`, the
`pem.Decode`/`x509.ParsePKIXPublicKey`/`*ecdsa.PublicKey` key-parsing pipeline,
`asn1.Unmarshal` into an `R`,`S` pair, `ecdsa.Verify` of the SHA-256 hash of a
message against the configured public key, and `json.Unmarshal` of the raw
body into the envelope. -/
structure WebhookCrypto (Bytes Sig : Type) where
  base64Decode : String → Option Bytes
  keyParseOk : Bool
  asn1Unmarshal : Bytes → Option Sig
  ecdsaVerifyHash : String → Sig → Bool
  parseEnvelope : String → Option WebhookEnvelope

/-- The order predicate of the webhook matching scan: status `pending_payment`
and order amount at most the credited amount. -/
def webhookOrderPred (credited : ℚ) (o : Order) : Bool :=
  decide (o.status = .pendingPayment) && decide (o.amountUSDC ≤ credited)

/-- The matching scan of `handleMuralWebhook`:
`for i := len(list) - 1; i >= 0; i--` over the `ListAll` result (which is
newest first), i.e. the scan visits the oldest order first and takes the first
qualifying one. -/
def webhookFindTarget (list : List Order) (credited : ℚ) : Option Order :=
  list.reverse.find? (webhookOrderPred credited)

/-- Modelled from the spec's words, for comparison with `webhookFindTarget`:
"among all orders, scan from most-recently-created backward, and select the
first order whose status is `pending_payment` and whose order amount is
less-than-or-equal the credited amount" — i.e. `find?` over the
newest-first list itself. -/
def specNewestFirstTarget (list : List Order) (credited : ℚ) : Option Order :=
  list.find? (webhookOrderPred credited)

/-- The event-filtering and order-matching phase of `handleMuralWebhook`
(after authentication and body decoding). -/
def processWebhookEvent (env : WebhookEnvelope) (orders : List Order) :
    HttpStatus × List Order :=
  if env.eventCategory ≠ "MURAL_ACCOUNT_BALANCE_ACTIVITY" then (.noContent, orders)
  else if env.payloadType ≠ "account_credited" then (.noContent, orders)
  else if env.accountId = "" ∨ eqFold env.tokenAmount.tokenSymbol "USDC" = false then
    (.noContent, orders)
  else
    match webhookFindTarget (listAll orders) env.tokenAmount.tokenAmount with
    | none => (.noContent, orders)
    | some target => (.noContent, updateStatus orders target.id .paid 0)

/-- `handleMuralWebhook`, POST `/api/webhooks/mural`: 503 when no Mural client
is configured; when a verification key is configured, require the three
signature headers, base64-decode the signature, parse the configured public
key, ASN.1-decode the signature, and verify the SHA-256 hash of
`timestamp ++ "." ++ body`; then decode the envelope and run the matching
phase. -/
def handleMuralWebhook {Bytes Sig : Type} (muralConfigured keyConfigured : Bool)
    (c : WebhookCrypto Bytes Sig) (r : WebhookRequest) (orders : List Order) :
    HttpStatus × List Order :=
  if muralConfigured = false then (.serviceUnavailable, orders)
  else if keyConfigured then
    if r.sigHeader = "" ∨ r.sigVersionHeader = "" ∨ r.tsHeader = "" then
      (.unauthorized, orders)
    else
      match c.base64Decode r.sigHeader with
      | none => (.unauthorized, orders)
      | some bs =>
        if c.keyParseOk = false then (.internalError, orders)
        else
          match c.asn1Unmarshal bs with
          | none => (.unauthorized, orders)
          | some sig =>
            if c.ecdsaVerifyHash (r.tsHeader ++ "." ++ r.body) sig = false then
              (.unauthorized, orders)
            else
              match c.parseEnvelope r.body with
              | none => (.badRequest, orders)
              | some env => processWebhookEvent env orders
  else
    match c.parseEnvelope r.body with
    | none => (.badRequest, orders)
    | some env => processWebhookEvent env orders

theorem processWebhookEvent_fst (env : WebhookEnvelope) (orders : List Order) :
    (processWebhookEvent env orders).1 = .noContent := by
  unfold processWebhookEvent
  repeat' split
  all_goals rfl

theorem webhook_unauthorized_frame {Bytes Sig : Type} (mc kc : Bool)
    (c : WebhookCrypto Bytes Sig) (r : WebhookRequest) (orders : List Order) :
    (handleMuralWebhook mc kc c r orders).1 = .unauthorized →
    (handleMuralWebhook mc kc c r orders).2 = orders := by
  unfold handleMuralWebhook
  repeat' split
  all_goals simp [processWebhookEvent_fst]

theorem string_append_ne_of_ne (s a b : String) (h : a ≠ b) : s ++ a ≠ s ++ b := by
  intro he
  apply h
  have hd := congrArg String.data he
  simp only [String.data_append] at hd
  exact String.ext (List.append_cancel_left hd)

/-- C5: with a verification key configured, `handleMuralWebhook` rejects with
401 any request missing one of the three signature headers and any request
whose signature does not verify against the SHA-256 hash of the timestamp
joined with the exact raw body; no order state changes on any 401; and (under
the assumption that the provided signature verifies exactly the original
signed message, the standing-in for ECDSA unforgeability) a request with a
tampered body and the unmodified signature is rejected with 401 and no state
change, while the identical unmodified request is accepted with 204. -/
theorem webhook_auth_spec {Bytes Sig : Type} (c : WebhookCrypto Bytes Sig)
    (r : WebhookRequest) (orders : List Order) :
    ((r.sigHeader = "" ∨ r.sigVersionHeader = "" ∨ r.tsHeader = "") →
      handleMuralWebhook true true c r orders = (.unauthorized, orders)) ∧
    (∀ bs sig, c.base64Decode r.sigHeader = some bs → c.keyParseOk = true →
      c.asn1Unmarshal bs = some sig →
      c.ecdsaVerifyHash (r.tsHeader ++ "." ++ r.body) sig = false →
      handleMuralWebhook true true c r orders = (.unauthorized, orders)) ∧
    ((handleMuralWebhook true true c r orders).1 = .unauthorized →
      (handleMuralWebhook true true c r orders).2 = orders) ∧
    (∀ bs sig env body2,
      ¬(r.sigHeader = "" ∨ r.sigVersionHeader = "" ∨ r.tsHeader = "") →
      c.base64Decode r.sigHeader = some bs → c.keyParseOk = true →
      c.asn1Unmarshal bs = some sig →
      (∀ m, c.ecdsaVerifyHash m sig = true ↔ m = r.tsHeader ++ "." ++ r.body) →
      c.parseEnvelope r.body = some env →
      body2 ≠ r.body →
      (handleMuralWebhook true true c r orders).1 = .noContent ∧
      handleMuralWebhook true true c { r with body := body2 } orders =
        (.unauthorized, orders)) := by
  refine ⟨?_, ?_, webhook_unauthorized_frame true true c r orders, ?_⟩
  · intro h
    simp [handleMuralWebhook, h]
  · intro bs sig h1 h2 h3 h4
    by_cases hh : r.sigHeader = "" ∨ r.sigVersionHeader = "" ∨ r.tsHeader = ""
    · simp [handleMuralWebhook, hh]
    · simp [handleMuralWebhook, hh, h1, h2, h3, h4]
  · intro bs sig env body2 hh h1 h2 h3 hiff h5 hne
    have hv : c.ecdsaVerifyHash (r.tsHeader ++ "." ++ r.body) sig = true :=
      (hiff _).mpr rfl
    have hmsg : r.tsHeader ++ "." ++ body2 ≠ r.tsHeader ++ "." ++ r.body :=
      string_append_ne_of_ne _ _ _ hne
    have hv2 : c.ecdsaVerifyHash (r.tsHeader ++ "." ++ body2) sig = false := by
      cases hb : c.ecdsaVerifyHash (r.tsHeader ++ "." ++ body2) sig with
      | false => rfl
      | true => exact absurd ((hiff _).mp hb) hmsg
    constructor
    · simp [handleMuralWebhook, hh, h1, h2, h3, hv, h5, processWebhookEvent_fst]
    · simp [handleMuralWebhook, hh, h1, h2, h3, hv2]

/-- A well-formed credited-event envelope used in concrete instances. -/
def envSeven : WebhookEnvelope :=
  { eventCategory := "MURAL_ACCOUNT_BALANCE_ACTIVITY",
    payloadType := "account_credited", accountId := "acct",
    tokenAmount := { tokenAmount := 7, tokenSymbol := "USDC" } }

/-- The untampered request matching `cW` below. -/
def rW : WebhookRequest :=
  { sigHeader := "sig", sigVersionHeader := "v1", tsHeader := "100", body := "body" }

/-- A concrete crypto environment whose verifier accepts exactly the message
signed over the untampered request `rW`. -/
def cW : WebhookCrypto Unit Unit :=
  { base64Decode := fun _ => some (), keyParseOk := true,
    asn1Unmarshal := fun _ => some (),
    ecdsaVerifyHash := fun m _ => m == rW.tsHeader ++ "." ++ rW.body,
    parseEnvelope := fun _ => some envSeven }

/-- C5, witness: the untampered request is accepted with 204, the same request
with a tampered body (and unmodified signature) is rejected with 401 without
state change, and a request missing the timestamp header is rejected with 401. -/
theorem webhook_auth_spec_witness :
    (handleMuralWebhook true true cW rW []).1 = .noContent ∧
    handleMuralWebhook true true cW { rW with body := "tampered" } [] =
      (.unauthorized, ([] : List Order)) ∧
    handleMuralWebhook true true cW { rW with tsHeader := "" } [] =
      (.unauthorized, ([] : List Order)) := by
  have h4 := (webhook_auth_spec cW rW []).2.2.2 () () envSeven "tampered"
    (by decide) rfl rfl rfl (by intro m; simp [cW]) rfl (by decide)
  have h1 := (webhook_auth_spec cW { rW with tsHeader := "" } []).1
    (Or.inr (Or.inr rfl))
  exact ⟨h4.1, h4.2, h1⟩

theorem find?_min_createdAt {l : List Order} {p : Order → Bool} {t : Order}
    (hl : l.Pairwise fun a b => a.createdAt ≤ b.createdAt)
    (h : l.find? p = some t) :
    ∀ o ∈ l, p o = true → t.createdAt ≤ o.createdAt := by
  induction l with
  | nil => simp at h
  | cons x xs ih =>
      rcases List.pairwise_cons.mp hl with ⟨hx, hxs⟩
      by_cases hp : p x = true
      · rw [List.find?_cons_of_pos _ hp] at h
        have ht : t = x := by simpa using h.symm
        subst ht
        intro o ho hpo
        rcases List.mem_cons.mp ho with rfl | ho2
        · exact le_refl _
        · exact hx o ho2
      · rw [List.find?_cons_of_neg _ (by simpa using hp)] at h
        intro o ho hpo
        rcases List.mem_cons.mp ho with rfl | ho2
        · exact absurd hpo hp
        · exact ih hxs h o ho2 hpo

/-- The older of the two qualifying pending orders of the counterexample. -/
def orderOld : Order :=
  { id := 1, customerName := "Ada", customerEmail := "", items := [],
    amountUSDC := 3, amountCOP := 0, status := .pendingPayment,
    payoutRequestID := none, payoutStatus := "", createdAt := 10 }

/-- The newer of the two qualifying pending orders of the counterexample. -/
def orderNew : Order :=
  { id := 2, customerName := "Bo", customerEmail := "", items := [],
    amountUSDC := 5, amountCOP := 0, status := .pendingPayment,
    payoutRequestID := none, payoutStatus := "", createdAt := 20 }

/-- Crypto environment delivering the credited-7-USDC event of `envSeven`. -/
def cSeven : WebhookCrypto Unit Unit :=
  { base64Decode := fun _ => none, keyParseOk := false,
    asn1Unmarshal := fun _ => none, ecdsaVerifyHash := fun _ _ => false,
    parseEnvelope := fun _ => some envSeven }

/-- A plain request (no signature headers; used with no key configured). -/
def rPlain : WebhookRequest :=
  { sigHeader := "", sigVersionHeader := "", tsHeader := "", body := "body" }

/-- C2, counterexample: with two `pending_payment` orders for 3.00 (older) and
5.00 (newer) and a credited amount of 7.00, both qualify; scanning from the
most recently created order backward (the claim's scan, `specNewestFirstTarget`)
would select the newer 5.00 order, but the handler's loop
`for i := len(list) - 1; i >= 0; i--` walks the newest-first `ListAll` result
from its end, i.e. oldest first, so the code selects and marks the older 3.00
order. -/
theorem webhook_scan_direction_counterexample :
    webhookFindTarget (listAll [orderNew, orderOld]) 7 = some orderOld ∧
    specNewestFirstTarget (listAll [orderNew, orderOld]) 7 = some orderNew ∧
    orderOld ≠ orderNew ∧
    (handleMuralWebhook true false cSeven rPlain [orderNew, orderOld]).2 =
      [orderNew, { orderOld with status := .paid }] := by
  refine ⟨by decide, by decide, by decide, by decide⟩

/-- C2 (amended): for every list of orders (newest first, as `ListAll` returns
it) and every authenticated account-credited USDC event, the webhook handler
scans the orders from the oldest forward and marks as paid the first order
whose status is `pending_payment` and whose amount is at most the credited
amount — i.e. the oldest qualifying order; in the spec's example (two pending
orders for 5.00 and 10.00 created in that order, credit 7.00) the older 5.00
order is still the one marked paid; if no order qualifies the event is
acknowledged with 204 and ignored. -/
theorem webhook_matching_amended {Bytes Sig : Type} (c : WebhookCrypto Bytes Sig)
    (r : WebhookRequest) (orders : List Order) (env : WebhookEnvelope)
    (hparse : c.parseEnvelope r.body = some env)
    (hcat : env.eventCategory = "MURAL_ACCOUNT_BALANCE_ACTIVITY")
    (htype : env.payloadType = "account_credited")
    (hacct : env.accountId ≠ "")
    (hsym : eqFold env.tokenAmount.tokenSymbol "USDC" = true)
    (hsorted : orders.Pairwise fun a b => b.createdAt ≤ a.createdAt) :
    handleMuralWebhook true false c r orders =
      (.noContent,
        match webhookFindTarget (listAll orders) env.tokenAmount.tokenAmount with
        | some t => updateStatus orders t.id .paid 0
        | none => orders) ∧
    (∀ t, webhookFindTarget (listAll orders) env.tokenAmount.tokenAmount = some t →
      t.status = .pendingPayment ∧ t.amountUSDC ≤ env.tokenAmount.tokenAmount ∧
      ∀ o ∈ orders, o.status = .pendingPayment →
        o.amountUSDC ≤ env.tokenAmount.tokenAmount → t.createdAt ≤ o.createdAt) := by
  constructor
  · simp only [handleMuralWebhook, processWebhookEvent, hparse, hcat, htype, hsym]
    simp only [hacct]
    simp only [false_or, if_false, ite_false, reduceIte, ne_eq, not_true_eq_false,
      Bool.true_eq_false, or_self, not_false_eq_true]
    cases webhookFindTarget (listAll orders) env.tokenAmount.tokenAmount <;> simp
  · intro t ht
    have hrev : orders.reverse.Pairwise fun a b => a.createdAt ≤ b.createdAt := by
      rw [List.pairwise_reverse]
      exact hsorted
    have hpred : webhookOrderPred env.tokenAmount.tokenAmount t = true :=
      List.find?_some ht
    have hmin := find?_min_createdAt hrev ht
    have hpred2 : t.status = .pendingPayment ∧
        t.amountUSDC ≤ env.tokenAmount.tokenAmount := by
      simpa [webhookOrderPred] using hpred
    refine ⟨hpred2.1, hpred2.2, ?_⟩
    intro o ho ho1 ho2
    exact hmin o (List.mem_reverse.mpr ho)
      (by simp [webhookOrderPred, ho1, ho2])

/-- The older 5.00 order of the spec's worked example. -/
def orderFive : Order :=
  { id := 1, customerName := "Ada", customerEmail := "", items := [],
    amountUSDC := 5, amountCOP := 0, status := .pendingPayment,
    payoutRequestID := none, payoutStatus := "", createdAt := 10 }

/-- The newer 10.00 order of the spec's worked example. -/
def orderTen : Order :=
  { id := 2, customerName := "Bo", customerEmail := "", items := [],
    amountUSDC := 10, amountCOP := 0, status := .pendingPayment,
    payoutRequestID := none, payoutStatus := "", createdAt := 20 }

/-- C2, witness: the spec's worked example under the amended claim — orders
for 5.00 and 10.00 created in that order, credit event of 7.00: the older 5.00
order is marked paid and the handler acknowledges with 204. -/
theorem webhook_matching_amended_witness :
    handleMuralWebhook true false cSeven rPlain [orderTen, orderFive] =
      (.noContent, [orderTen, { orderFive with status := .paid }]) ∧
    orderFive.createdAt ≤ orderTen.createdAt := by
  have h := (webhook_matching_amended cSeven rPlain [orderTen, orderFive] envSeven
    rfl rfl rfl (by decide) (by decide) (by decide)).1
  rw [h]
  exact ⟨by decide, by decide⟩

/-- The status-writing events of the code, for a single order.  Each
constructor is one `UpdateStatus` call site:
* `watchPaid` — the deposit-watch loop of `simulatePaymentLifecycle` writing
  `paid` (on a matched transaction or on timeout); also the first write of the
  mock (no-Mural-client) path;
* `quotePaid` — the quote step writing `paid` with a fiat estimate (both the
  quote-success and the fallback branch, and the mock path's second write);
* `webhookPaid` — the `UpdateStatus(target.ID, paid, 0)` call of
  `handleMuralWebhook`.  The handler only issues this write for an order whose
  status its scan over the `ListAll` snapshot observed as `pending_payment`,
  but the write itself is a separate, unguarded call: between the scan and the
  write other paths may have advanced the order, so the write can land on any
  later status;
* `reconExec` / `reconFail` / `reconOther` — `handleAdminOrderPayout` reacting
  to a live payout status of `EXECUTED` (write `withdrawn`), `FAILED` or
  `CANCELED` (write `payout_error`), or anything else (no status write);
* `taskWithdrawn` — `simulatePaymentLifecycle` writing `withdrawn` after the
  payout execution reported `EXECUTED` (also the mock path's final write). -/
inductive Ev
  | watchPaid
  | quotePaid
  | webhookPaid
  | reconExec
  | reconFail
  | reconOther
  | taskWithdrawn
deriving DecidableEq, Repr

/-- The status written by each event from status `s`, as the code writes it:
every `UpdateStatus` call, the webhook's included, is an unguarded overwrite —
the webhook's `pending_payment` check happened earlier, at scan time, and does
not re-run at write time. -/
def applyEv (s : OrderStatus) : Ev → OrderStatus
  | .watchPaid => .paid
  | .quotePaid => .paid
  | .webhookPaid => .paid
  | .reconExec => .withdrawn
  | .reconFail => .payoutError
  | .reconOther => s
  | .taskWithdrawn => .withdrawn

/-- The step function under the amended claim's proviso that the webhook's
scan and its write are not separated by another status write: the check-and-act
becomes atomic, so a webhook delivery writes `paid` exactly when the order is
still `pending_payment` at the write, and otherwise writes nothing.  All other
events are as in `applyEv`. -/
def applyEvAtomic (s : OrderStatus) : Ev → OrderStatus
  | .watchPaid => .paid
  | .quotePaid => .paid
  | .webhookPaid => if s = .pendingPayment then .paid else s
  | .reconExec => .withdrawn
  | .reconFail => .payoutError
  | .reconOther => s
  | .taskWithdrawn => .withdrawn

/-- Status after running a list of events from `s` under step function `f`. -/
def runEnd (f : OrderStatus → Ev → OrderStatus) (s : OrderStatus)
    (es : List Ev) : OrderStatus := es.foldl f s

/-- The statuses observed before each event under step function `f`. -/
def statusesBefore (f : OrderStatus → Ev → OrderStatus) (s : OrderStatus) :
    List Ev → List OrderStatus
  | [] => []
  | e :: es => s :: statusesBefore f (f s e) es

/-- The full sequence of status values an order takes along an event list
under step function `f`. -/
def statusTrace (f : OrderStatus → Ev → OrderStatus) (s : OrderStatus)
    (es : List Ev) : List OrderStatus :=
  statusesBefore f s es ++ [runEnd f s es]

/-- Events that can occur while a payout exists and only executed-or-neutral
outcomes are reported. -/
def execPhase (e : Ev) : Prop :=
  e = .webhookPaid ∨ e = .reconExec ∨ e = .reconOther ∨ e = .taskWithdrawn

/-- Events that can occur while a payout exists and only failed-or-neutral
outcomes are reported. -/
def failPhase (e : Ev) : Prop :=
  e = .webhookPaid ∨ e = .reconFail ∨ e = .reconOther

/-- Events possible after the quote step: webhook deliveries and
reconciliation reads (reconciliation requires a stored payout-request id,
which is only set after the quote step's `paid` write). -/
def reconPhase (e : Ev) : Prop :=
  e = .webhookPaid ∨ e = .reconExec ∨ e = .reconFail ∨ e = .reconOther

/-- The event interleavings the code can produce for one order: webhook
writes may land at any position — a delivery's scan can run at any time the
order is `pending_payment` (in particular right after creation) and nothing
synchronises the scan with the later `UpdateStatus` write, so the write may be
arbitrarily delayed; the orchestrator task contributes, in program order, its
watch-loop `paid` write, then its quote-step `paid` write, then (only if
execution reported `EXECUTED`) its `withdrawn` write, and may stop after any
prefix (on create/execute errors the task returns early); reconciliation
events require the payout-request id and therefore only occur after the quote
step. -/
def ValidTrace (es : List Ev) : Prop :=
  (∀ e ∈ es, e = .webhookPaid) ∨
  (∃ w1 w2, es = w1 ++ .watchPaid :: w2 ∧
    (∀ e ∈ w1, e = .webhookPaid) ∧ (∀ e ∈ w2, e = .webhookPaid)) ∨
  (∃ w1 w2 r, es = w1 ++ .watchPaid :: (w2 ++ .quotePaid :: r) ∧
    (∀ e ∈ w1, e = .webhookPaid) ∧ (∀ e ∈ w2, e = .webhookPaid) ∧
    (∀ e ∈ r, reconPhase e)) ∨
  (∃ w1 w2 r1 r2,
    es = w1 ++ .watchPaid :: (w2 ++ .quotePaid :: (r1 ++ .taskWithdrawn :: r2)) ∧
    (∀ e ∈ w1, e = .webhookPaid) ∧ (∀ e ∈ w2, e = .webhookPaid) ∧
    (∀ e ∈ r1, reconPhase e) ∧ (∀ e ∈ r2, reconPhase e))

/-- The provider reports terminal payout outcomes consistently: it never
reports both `EXECUTED` and `FAILED`/`CANCELED` for the same payout
(spec section 4.3 calls these terminal provider outcomes). -/
def ProviderConsistent (es : List Ev) : Prop :=
  ¬((Ev.reconExec ∈ es ∨ Ev.taskWithdrawn ∈ es) ∧ Ev.reconFail ∈ es)

instance (e : Ev) : Decidable (execPhase e) := by
  unfold execPhase
  infer_instance

instance (e : Ev) : Decidable (failPhase e) := by
  unfold failPhase
  infer_instance

instance (e : Ev) : Decidable (reconPhase e) := by
  unfold reconPhase
  infer_instance

instance (es : List Ev) : Decidable (ProviderConsistent es) := by
  unfold ProviderConsistent
  infer_instance

theorem runEnd_cons (f : OrderStatus → Ev → OrderStatus) (s : OrderStatus)
    (e : Ev) (l : List Ev) : runEnd f s (e :: l) = runEnd f (f s e) l := rfl

theorem statusesBefore_cons (f : OrderStatus → Ev → OrderStatus)
    (s : OrderStatus) (e : Ev) (l : List Ev) :
    statusesBefore f s (e :: l) = s :: statusesBefore f (f s e) l := rfl

theorem runEnd_append (f : OrderStatus → Ev → OrderStatus) (s : OrderStatus)
    (l1 l2 : List Ev) : runEnd f s (l1 ++ l2) = runEnd f (runEnd f s l1) l2 := by
  simp [runEnd, List.foldl_append]

theorem statusesBefore_append (f : OrderStatus → Ev → OrderStatus)
    (s : OrderStatus) (l1 l2 : List Ev) :
    statusesBefore f s (l1 ++ l2) =
      statusesBefore f s l1 ++ statusesBefore f (runEnd f s l1) l2 := by
  induction l1 generalizing s with
  | nil => simp [statusesBefore, runEnd]
  | cons e es ih => simp [statusesBefore, runEnd_cons, ih]

theorem applyEvAtomic_watchPaid (s : OrderStatus) :
    applyEvAtomic s .watchPaid = .paid := rfl

theorem applyEvAtomic_quotePaid (s : OrderStatus) :
    applyEvAtomic s .quotePaid = .paid := rfl

theorem noop_run (s : OrderStatus) (l : List Ev)
    (h : ∀ e ∈ l, applyEvAtomic s e = s) :
    statusesBefore applyEvAtomic s l = List.replicate l.length s ∧
      runEnd applyEvAtomic s l = s := by
  induction l with
  | nil => exact ⟨rfl, rfl⟩
  | cons e es ih =>
      have he := h e (by simp)
      have ihs := ih fun x hx => h x (by simp [hx])
      refine ⟨?_, ?_⟩
      · simp [statusesBefore, he, ihs.1, List.replicate_succ]
      · simp [runEnd_cons, he, ihs.2]

theorem webhook_only_paid (l : List Ev) (h : ∀ e ∈ l, e = .webhookPaid) :
    statusesBefore applyEvAtomic .paid l = List.replicate l.length .paid ∧
      runEnd applyEvAtomic .paid l = .paid :=
  noop_run _ _ fun e he => by rw [h e he]; rfl

theorem webhook_from_pending (l : List Ev) (h : ∀ e ∈ l, e = .webhookPaid) :
    (statusesBefore applyEvAtomic .pendingPayment l = [] ∧
      runEnd applyEvAtomic .pendingPayment l = .pendingPayment) ∨
    (∃ b, statusesBefore applyEvAtomic .pendingPayment l =
      .pendingPayment :: List.replicate b .paid ∧
      runEnd applyEvAtomic .pendingPayment l = .paid) := by
  cases l with
  | nil => exact Or.inl ⟨rfl, rfl⟩
  | cons e es =>
      right
      have he : e = Ev.webhookPaid := h e (by simp)
      subst he
      have h2 := webhook_only_paid es fun x hx => h x (by simp [hx])
      exact ⟨es.length, by simp [statusesBefore, applyEvAtomic, h2.1],
        by simp [runEnd_cons, applyEvAtomic, h2.2]⟩

theorem phase_from_paid (T : OrderStatus) (P : Ev → Prop)
    (hstep : ∀ e, P e → applyEvAtomic .paid e = .paid ∨ applyEvAtomic .paid e = T)
    (hstay : ∀ e, P e → applyEvAtomic T e = T)
    (l : List Ev) (h : ∀ e ∈ l, P e) :
    (statusesBefore applyEvAtomic .paid l = List.replicate l.length .paid ∧
      runEnd applyEvAtomic .paid l = .paid) ∨
    (∃ a b, statusesBefore applyEvAtomic .paid l =
      List.replicate a .paid ++ List.replicate b T ∧
      runEnd applyEvAtomic .paid l = T) := by
  induction l with
  | nil => exact Or.inl ⟨rfl, rfl⟩
  | cons e es ih =>
      have hes : ∀ x ∈ es, P x := fun x hx => h x (by simp [hx])
      rcases hstep e (h e (by simp)) with happ | happ
      · rcases ih hes with ⟨hsb, hre⟩ | ⟨a, b, hsb, hre⟩
        · exact Or.inl ⟨by simp [statusesBefore, happ, hsb, List.replicate_succ],
            by simp [runEnd_cons, happ, hre]⟩
        · exact Or.inr ⟨a + 1, b,
            by simp [statusesBefore, happ, hsb, List.replicate_succ],
            by simp [runEnd_cons, happ, hre]⟩
      · have h2 := noop_run T es fun x hx => hstay x (hes x hx)
        exact Or.inr ⟨1, es.length,
          by simp [statusesBefore, happ, h2.1, List.replicate_succ],
          by simp [runEnd_cons, happ, h2.2]⟩

theorem exec_noop_withdrawn (e : Ev) (h : execPhase e) :
    applyEvAtomic .withdrawn e = .withdrawn := by
  rcases h with rfl | rfl | rfl | rfl <;> rfl

theorem exec_step_paid (e : Ev) (h : execPhase e) :
    applyEvAtomic .paid e = .paid ∨ applyEvAtomic .paid e = .withdrawn := by
  rcases h with rfl | rfl | rfl | rfl
  · exact Or.inl rfl
  · exact Or.inr rfl
  · exact Or.inl rfl
  · exact Or.inr rfl

theorem fail_noop_payoutError (e : Ev) (h : failPhase e) :
    applyEvAtomic .payoutError e = .payoutError := by
  rcases h with rfl | rfl | rfl <;> rfl

theorem fail_step_paid (e : Ev) (h : failPhase e) :
    applyEvAtomic .paid e = .paid ∨ applyEvAtomic .paid e = .payoutError := by
  rcases h with rfl | rfl | rfl
  · exact Or.inl rfl
  · exact Or.inr rfl
  · exact Or.inl rfl

/-- Lists consisting of a block of `paid` then a block of the terminal `T`. -/
def PaidShape (T : OrderStatus) (l : List OrderStatus) : Prop :=
  ∃ b c, l = List.replicate b .paid ++ List.replicate c T

theorem paidShape_cons {T : OrderStatus} {l : List OrderStatus}
    (h : PaidShape T l) : PaidShape T (.paid :: l) := by
  obtain ⟨b, c, rfl⟩ := h
  exact ⟨b + 1, c, by simp [List.replicate_succ]⟩

theorem paidShape_prepend {T : OrderStatus} {l : List OrderStatus} (k : ℕ)
    (h : PaidShape T l) : PaidShape T (List.replicate k .paid ++ l) := by
  obtain ⟨b, c, rfl⟩ := h
  exact ⟨k + b, c, by rw [← List.append_assoc, ← List.replicate_add]⟩

theorem exists_shape_cons_pending {T : OrderStatus} {l : List OrderStatus}
    (h : PaidShape T l) :
    ∃ a b c, (OrderStatus.pendingPayment :: l) =
      List.replicate a .pendingPayment ++
        (List.replicate b .paid ++ List.replicate c T) := by
  obtain ⟨b, c, rfl⟩ := h
  exact ⟨1, b, c, by simp⟩

theorem statusTrace_decomp (w1 w2 r : List Ev)
    (hw2 : ∀ e ∈ w2, e = .webhookPaid) :
    statusTrace applyEvAtomic .pendingPayment
        (w1 ++ .watchPaid :: (w2 ++ .quotePaid :: r)) =
      statusesBefore applyEvAtomic .pendingPayment w1 ++
        (runEnd applyEvAtomic .pendingPayment w1 ::
          (List.replicate w2.length .paid ++
            (.paid :: (statusesBefore applyEvAtomic .paid r ++
              [runEnd applyEvAtomic .paid r])))) := by
  have hw2p := webhook_only_paid w2 hw2
  unfold statusTrace
  rw [statusesBefore_append, runEnd_append, statusesBefore_cons, runEnd_cons,
    applyEvAtomic_watchPaid, statusesBefore_append, runEnd_append, hw2p.1, hw2p.2,
    statusesBefore_cons, runEnd_cons, applyEvAtomic_quotePaid]
  simp [List.append_assoc]

theorem statusTrace_decomp2 (w1 w2 : List Ev)
    (hw2 : ∀ e ∈ w2, e = .webhookPaid) :
    statusTrace applyEvAtomic .pendingPayment (w1 ++ .watchPaid :: w2) =
      statusesBefore applyEvAtomic .pendingPayment w1 ++
        (runEnd applyEvAtomic .pendingPayment w1 ::
          (List.replicate w2.length .paid ++ [.paid])) := by
  have hw2p := webhook_only_paid w2 hw2
  unfold statusTrace
  rw [statusesBefore_append, runEnd_append, statusesBefore_cons, runEnd_cons,
    applyEvAtomic_watchPaid, hw2p.1, hw2p.2]
  simp [List.append_assoc]

theorem fullShape_of_tail (w1 w2 r : List Ev) (T : OrderStatus)
    (hw1 : ∀ e ∈ w1, e = .webhookPaid) (hw2 : ∀ e ∈ w2, e = .webhookPaid)
    (htail : (statusesBefore applyEvAtomic .paid r =
        List.replicate r.length .paid ∧
        runEnd applyEvAtomic .paid r = .paid) ∨
      (∃ a b, statusesBefore applyEvAtomic .paid r =
        List.replicate a .paid ++ List.replicate b T ∧
        runEnd applyEvAtomic .paid r = T)) :
    ∃ a b c, statusTrace applyEvAtomic .pendingPayment
        (w1 ++ .watchPaid :: (w2 ++ .quotePaid :: r)) =
      List.replicate a .pendingPayment ++
        (List.replicate b .paid ++ List.replicate c T) := by
  rw [statusTrace_decomp w1 w2 r hw2]
  have hP0 : PaidShape T (statusesBefore applyEvAtomic .paid r ++
      [runEnd applyEvAtomic .paid r]) := by
    rcases htail with ⟨hsb, hre⟩ | ⟨a, b, hsb, hre⟩
    · rw [hsb, hre]
      exact ⟨r.length + 1, 0, by simp [List.replicate_succ']⟩
    · rw [hsb, hre]
      exact ⟨a, b + 1, by simp [List.replicate_succ', List.append_assoc]⟩
  have hP2 := paidShape_prepend w2.length (paidShape_cons hP0)
  rcases webhook_from_pending w1 hw1 with ⟨hsb1, hre1⟩ | ⟨b1, hsb1, hre1⟩
  · rw [hsb1, hre1]
    simpa using exists_shape_cons_pending hP2
  · rw [hsb1, hre1]
    have := exists_shape_cons_pending (paidShape_prepend b1 (paidShape_cons hP2))
    simpa [List.cons_append, List.append_assoc] using this

/-- C4 (amended): for every single order, over all status-update paths of the
code (the orchestrator task, the webhook handler, and the live payout-status
reconciliation read, interleaved in any way the code allows), assuming the
provider reports terminal payout outcomes consistently AND each webhook `paid`
write takes effect while the order still has the `pending_payment` status its
scan observed (no other status write lands between the webhook's scan and its
update — the `applyEvAtomic` semantics), the sequence of status values the
order takes is a block of `pending_payment`, then a block of `paid`, then a
block of `withdrawn` — or `pending_payment`, `paid`, `payout_error`.  In
particular the deduplicated sequence is a subsequence of
`pending_payment, paid, withdrawn` or `pending_payment, paid, payout_error`:
no transition out of `withdrawn` and none back to `pending_payment`.  Without
the webhook proviso the raced interleaving of `webhook_race_counterexample`
re-marks a withdrawn order as paid. -/
theorem order_status_lifecycle (es : List Ev) (hv : ValidTrace es)
    (hc : ProviderConsistent es) :
    (∃ a b c, statusTrace applyEvAtomic .pendingPayment es =
      List.replicate a .pendingPayment ++
        (List.replicate b .paid ++ List.replicate c .withdrawn)) ∨
    (∃ a b c, statusTrace applyEvAtomic .pendingPayment es =
      List.replicate a .pendingPayment ++
        (List.replicate b .paid ++ List.replicate c .payoutError)) := by
  rcases hv with h | ⟨w1, w2, rfl, hw1, hw2⟩ | ⟨w1, w2, r, rfl, hw1, hw2, hr⟩ |
    ⟨w1, w2, r1, r2, rfl, hw1, hw2, hr1, hr2⟩
  · left
    rcases webhook_from_pending es h with ⟨hsb, hre⟩ | ⟨b, hsb, hre⟩
    · exact ⟨1, 0, 0, by simp [statusTrace, hsb, hre]⟩
    · exact ⟨1, b + 1, 0,
        by simp [statusTrace, hsb, hre, List.replicate_succ', List.append_assoc]⟩
  · left
    rw [statusTrace_decomp2 w1 w2 hw2]
    have hP : PaidShape .withdrawn (List.replicate w2.length .paid ++ [.paid]) :=
      ⟨w2.length + 1, 0, by simp [List.replicate_succ']⟩
    rcases webhook_from_pending w1 hw1 with ⟨hsb1, hre1⟩ | ⟨b1, hsb1, hre1⟩
    · rw [hsb1, hre1]
      simpa using exists_shape_cons_pending hP
    · rw [hsb1, hre1]
      have := exists_shape_cons_pending (paidShape_prepend b1 (paidShape_cons hP))
      simpa [List.cons_append, List.append_assoc] using this
  · by_cases hf : Ev.reconFail ∈ r
    · right
      have hfes : Ev.reconFail ∈ w1 ++ .watchPaid :: (w2 ++ .quotePaid :: r) := by
        simp [hf]
      have hfail : ∀ e ∈ r, failPhase e := by
        intro e he
        rcases hr e he with h1 | h1 | h1 | h1
        · exact Or.inl h1
        · exfalso
          apply hc
          subst h1
          exact ⟨Or.inl (by simp [he]), hfes⟩
        · exact Or.inr (Or.inl h1)
        · exact Or.inr (Or.inr h1)
      exact fullShape_of_tail w1 w2 r .payoutError hw1 hw2
        (phase_from_paid .payoutError failPhase fail_step_paid
          fail_noop_payoutError r hfail)
    · left
      have hexec : ∀ e ∈ r, execPhase e := by
        intro e he
        rcases hr e he with h1 | h1 | h1 | h1
        · exact Or.inl h1
        · exact Or.inr (Or.inl h1)
        · exact absurd (h1 ▸ he) hf
        · exact Or.inr (Or.inr (Or.inl h1))
      exact fullShape_of_tail w1 w2 r .withdrawn hw1 hw2
        (phase_from_paid .withdrawn execPhase exec_step_paid
          exec_noop_withdrawn r hexec)
  · left
    have htw : Ev.taskWithdrawn ∈
        w1 ++ .watchPaid :: (w2 ++ .quotePaid :: (r1 ++ .taskWithdrawn :: r2)) := by
      simp
    have hnofail : Ev.reconFail ∉
        w1 ++ .watchPaid :: (w2 ++ .quotePaid :: (r1 ++ .taskWithdrawn :: r2)) :=
      fun hmem => hc ⟨Or.inr htw, hmem⟩
    have hexec : ∀ e ∈ r1 ++ .taskWithdrawn :: r2, execPhase e := by
      intro e he
      rcases List.mem_append.mp he with he1 | he2
      · rcases hr1 e he1 with h1 | h1 | h1 | h1
        · exact Or.inl h1
        · exact Or.inr (Or.inl h1)
        · exact absurd (by simp [h1 ▸ he1]) hnofail
        · exact Or.inr (Or.inr (Or.inl h1))
      · rcases List.mem_cons.mp he2 with rfl | he3
        · exact Or.inr (Or.inr (Or.inr rfl))
        · rcases hr2 e he3 with h1 | h1 | h1 | h1
          · exact Or.inl h1
          · exact Or.inr (Or.inl h1)
          · exact absurd (by simp [h1 ▸ he3]) hnofail
          · exact Or.inr (Or.inr (Or.inl h1))
    exact fullShape_of_tail w1 w2 (r1 ++ .taskWithdrawn :: r2) .withdrawn hw1 hw2
      (phase_from_paid .withdrawn execPhase exec_step_paid
        exec_noop_withdrawn _ hexec)

/-- A demonstration interleaving: a webhook delivery, the task's watch and
quote writes, a reconciliation read seeing `EXECUTED`, then the task's own
`withdrawn` write. -/
def demoTrace : List Ev :=
  [.webhookPaid, .watchPaid, .quotePaid, .reconExec, .taskWithdrawn]

/-- C4, witness: the demonstration interleaving is a valid, consistent trace,
and under the amended claim's proviso its status sequence is
`pending_payment`, then `paid` three times, then `withdrawn` twice — a
subsequence of the allowed chain. -/
theorem order_status_lifecycle_witness :
    ValidTrace demoTrace ∧ ProviderConsistent demoTrace ∧
    ((∃ a b c, statusTrace applyEvAtomic .pendingPayment demoTrace =
      List.replicate a .pendingPayment ++
        (List.replicate b .paid ++ List.replicate c .withdrawn)) ∨
    (∃ a b c, statusTrace applyEvAtomic .pendingPayment demoTrace =
      List.replicate a .pendingPayment ++
        (List.replicate b .paid ++ List.replicate c .payoutError))) := by
  have hv : ValidTrace demoTrace :=
    Or.inr (Or.inr (Or.inr ⟨[.webhookPaid], [], [.reconExec], [], rfl,
      by decide, by decide, by decide, by decide⟩))
  exact ⟨hv, by decide, order_status_lifecycle demoTrace hv (by decide)⟩

/-- Bool test for a transition out of `withdrawn`: some adjacent pair of the
status sequence is `withdrawn` followed by a different status. -/
def leavesWithdrawn : List OrderStatus → Bool
  | x :: y :: l =>
      (decide (x = .withdrawn) && decide (y ≠ .withdrawn)) ||
        leavesWithdrawn (y :: l)
  | _ => false

theorem lw_cons_of_ne (x : OrderStatus) (hx : x ≠ .withdrawn)
    (l : List OrderStatus) : leavesWithdrawn (x :: l) = leavesWithdrawn l := by
  cases l with
  | nil => rfl
  | cons y l => simp [leavesWithdrawn, hx]

theorem lw_replicate_of_ne (x : OrderStatus) (hx : x ≠ .withdrawn) (n : ℕ)
    (l : List OrderStatus) :
    leavesWithdrawn (List.replicate n x ++ l) = leavesWithdrawn l := by
  induction n with
  | zero => simp
  | succ m ih =>
      rw [List.replicate_succ, List.cons_append, lw_cons_of_ne x hx]
      exact ih

theorem lw_replicate_withdrawn (n : ℕ) :
    leavesWithdrawn (List.replicate n OrderStatus.withdrawn) = false := by
  induction n with
  | zero => rfl
  | succ m ih =>
      cases m with
      | zero => rfl
      | succ k =>
          rw [List.replicate_succ]
          have h2 : leavesWithdrawn
              (OrderStatus.withdrawn :: List.replicate (k + 1) .withdrawn) =
              leavesWithdrawn (List.replicate (k + 1) OrderStatus.withdrawn) := by
            rw [List.replicate_succ]
            simp [leavesWithdrawn]
          rw [h2]
          exact ih

theorem leavesWithdrawn_shape (T : OrderStatus) (a b c : ℕ) :
    leavesWithdrawn (List.replicate a .pendingPayment ++
      (List.replicate b .paid ++ List.replicate c T)) = false := by
  rw [lw_replicate_of_ne _ (by decide), lw_replicate_of_ne _ (by decide)]
  by_cases hT : T = .withdrawn
  · subst hT
    exact lw_replicate_withdrawn c
  · have h3 := lw_replicate_of_ne T hT c []
    simpa [leavesWithdrawn] using h3

/-- The raced interleaving: the orchestrator drives the order to `paid`, the
payout executes and the order is marked `withdrawn`; only then does the
delayed `UpdateStatus(paid)` of a webhook delivery — whose scan had observed
the order `pending_payment` back at creation time — land. -/
def demoRaced : List Ev :=
  [.watchPaid, .quotePaid, .taskWithdrawn, .webhookPaid]

/-- C4, counterexample: the raced interleaving `demoRaced` is a trace the code
allows (valid and provider-consistent), yet under the code's real write
semantics `applyEv` its status sequence is
`pending_payment, paid, paid, withdrawn, paid` — the delayed webhook write
re-marks the withdrawn order as paid, a transition out of `withdrawn`, so the
sequence is not a subsequence of `pending_payment, paid, withdrawn` nor of
`pending_payment, paid, payout_error` as the claim states. -/
theorem webhook_race_counterexample :
    ValidTrace demoRaced ∧ ProviderConsistent demoRaced ∧
    statusTrace applyEv .pendingPayment demoRaced =
      [.pendingPayment, .paid, .paid, .withdrawn, .paid] ∧
    leavesWithdrawn (statusTrace applyEv .pendingPayment demoRaced) = true ∧
    ¬(∃ a b c, statusTrace applyEv .pendingPayment demoRaced =
      List.replicate a .pendingPayment ++
        (List.replicate b .paid ++ List.replicate c .withdrawn)) ∧
    ¬(∃ a b c, statusTrace applyEv .pendingPayment demoRaced =
      List.replicate a .pendingPayment ++
        (List.replicate b .paid ++ List.replicate c .payoutError)) := by
  have hv : ValidTrace demoRaced :=
    Or.inr (Or.inr (Or.inr ⟨[], [], [], [.webhookPaid], rfl,
      by decide, by decide, by decide, by decide⟩))
  refine ⟨hv, by decide, by decide, by decide, ?_, ?_⟩
  · rintro ⟨a, b, c, heq⟩
    have hlw : leavesWithdrawn (statusTrace applyEv .pendingPayment demoRaced) =
        true := by decide
    rw [heq, leavesWithdrawn_shape] at hlw
    exact Bool.false_ne_true hlw
  · rintro ⟨a, b, c, heq⟩
    have hlw : leavesWithdrawn (statusTrace applyEv .pendingPayment demoRaced) =
        true := by decide
    rw [heq, leavesWithdrawn_shape] at hlw
    exact Bool.false_ne_true hlw

/-- One iteration's observations in the deposit-watch loop of
`simulatePaymentLifecycle`: the result of `SearchTransactionsForAccount`
(`none` models a transport error) and the value of `time.Now()` at that
iteration's deadline check. -/
structure Poll where
  result : Option (List Tx)
  now : Int

/-- Loop state: whether the loop has exited, how many `paid` status writes it
has issued, and the `paymentMarked` flag. -/
structure WatchState where
  exited : Bool
  paidWrites : ℕ
  paymentMarked : Bool
deriving DecidableEq, Repr

/-- State at loop entry. -/
def watchInit : WatchState :=
  { exited := false, paidWrites := 0, paymentMarked := false }

/-- One iteration of the polling loop: on a successful poll, scan the page for
a matching record and, on a match, write `paid` and break; otherwise (and on a
transport error, which is only logged) fall through to the deadline check,
which on expiry writes `paid` unless already marked and breaks; otherwise
sleep and continue. -/
def watchStep (createdAt : Int) (amountUSDC : ℚ) (deadline : Int) (p : Poll)
    (s : WatchState) : WatchState :=
  if s.exited then s
  else
    match p.result with
    | some txs =>
      if txs.any (txMatch createdAt amountUSDC) then
        { exited := true, paidWrites := s.paidWrites + 1, paymentMarked := true }
      else if p.now > deadline then
        { exited := true,
          paidWrites := if s.paymentMarked then s.paidWrites else s.paidWrites + 1,
          paymentMarked := true }
      else s
    | none =>
      if p.now > deadline then
        { exited := true,
          paidWrites := if s.paymentMarked then s.paidWrites else s.paidWrites + 1,
          paymentMarked := true }
      else s

/-- The loop state after `n` iterations against the observation stream `obs`. -/
def watchRun (createdAt : Int) (amountUSDC : ℚ) (deadline : Int) (obs : ℕ → Poll) :
    ℕ → WatchState
  | 0 => watchInit
  | n + 1 =>
      watchStep createdAt amountUSDC deadline (obs n)
        (watchRun createdAt amountUSDC deadline obs n)

theorem watch_invariant (createdAt : Int) (amountUSDC : ℚ) (deadline : Int)
    (obs : ℕ → Poll)
    (hnomatch : ∀ i txs, (obs i).result = some txs →
      ∀ tx ∈ txs, txMatch createdAt amountUSDC tx = false) :
    ∀ m, ((watchRun createdAt amountUSDC deadline obs m).exited = false →
        (watchRun createdAt amountUSDC deadline obs m).paidWrites = 0 ∧
        (watchRun createdAt amountUSDC deadline obs m).paymentMarked = false) ∧
      ((watchRun createdAt amountUSDC deadline obs m).exited = true →
        (watchRun createdAt amountUSDC deadline obs m).paidWrites = 1 ∧
        ∃ i < m, (obs i).now > deadline) := by
  intro m
  induction m with
  | zero => exact ⟨fun _ => ⟨rfl, rfl⟩, fun h => by simp [watchRun, watchInit] at h⟩
  | succ n ih =>
      cases hex : (watchRun createdAt amountUSDC deadline obs n).exited with
      | true =>
          have hstep : watchRun createdAt amountUSDC deadline obs (n + 1) =
              watchRun createdAt amountUSDC deadline obs n := by
            simp [watchRun, watchStep, hex]
          rcases (ih.2 hex) with ⟨hp, i, hi, hd⟩
          refine ⟨fun h => ?_, fun _ => ⟨by rw [hstep]; exact hp, i, Nat.lt_succ_of_lt hi, hd⟩⟩
          rw [hstep, hex] at h
          exact absurd h (by simp)
      | false =>
          rcases ih.1 hex with ⟨hp0, hm0⟩
          have hany : ∀ txs, (obs n).result = some txs →
              txs.any (txMatch createdAt amountUSDC) = false := by
            intro txs htxs
            rw [List.any_eq_false]
            intro tx htx
            simpa using hnomatch n txs htxs tx htx
          cases hres : (obs n).result with
          | none =>
              by_cases hnow : (obs n).now > deadline
              · constructor
                · intro h
                  simp [watchRun, watchStep, hex, hres, hnow] at h
                · intro _
                  refine ⟨by simp [watchRun, watchStep, hex, hres, hnow, hm0, hp0],
                    n, Nat.lt_succ_self n, hnow⟩
              · have hstep : watchRun createdAt amountUSDC deadline obs (n + 1) =
                    watchRun createdAt amountUSDC deadline obs n := by
                  simp [watchRun, watchStep, hex, hres, hnow]
                constructor
                · intro _
                  rw [hstep]
                  exact ⟨hp0, hm0⟩
                · intro h
                  rw [hstep, hex] at h
                  exact absurd h (by simp)
          | some txs =>
              have ha := hany txs hres
              by_cases hnow : (obs n).now > deadline
              · constructor
                · intro h
                  simp [watchRun, watchStep, hex, hres, ha, hnow] at h
                · intro _
                  refine ⟨by simp [watchRun, watchStep, hex, hres, ha, hnow, hm0, hp0],
                    n, Nat.lt_succ_self n, hnow⟩
              · have hstep : watchRun createdAt amountUSDC deadline obs (n + 1) =
                    watchRun createdAt amountUSDC deadline obs n := by
                  simp [watchRun, watchStep, hex, hres, ha, hnow]
                constructor
                · intro _
                  rw [hstep]
                  exact ⟨hp0, hm0⟩
                · intro h
                  rw [hstep, hex] at h
                  exact absurd h (by simp)

/-- C6: if the deposit-watch loop sees no matching record, then as soon as an
iteration's deadline check observes a time past the 2-minute deadline the loop
exits; the order receives its forced `paid` write exactly once (at most one
`paid` write ever, and exactly one on every exited state); and the loop exits
only because of the deadline — transport failures (error polls) never
terminate it. -/
theorem deposit_watch_timeout_spec (createdAt : Int) (amountUSDC : ℚ)
    (deadline : Int) (obs : ℕ → Poll)
    (hnomatch : ∀ i txs, (obs i).result = some txs →
      ∀ tx ∈ txs, txMatch createdAt amountUSDC tx = false)
    (N : ℕ) (hN : (obs N).now > deadline) :
    (watchRun createdAt amountUSDC deadline obs (N + 1)).exited = true ∧
    (∀ m, (watchRun createdAt amountUSDC deadline obs m).paidWrites ≤ 1) ∧
    (∀ m, (watchRun createdAt amountUSDC deadline obs m).exited = true →
      (watchRun createdAt amountUSDC deadline obs m).paidWrites = 1) ∧
    (∀ m, (watchRun createdAt amountUSDC deadline obs m).exited = true →
      ∃ i < m, (obs i).now > deadline) := by
  have hinv := watch_invariant createdAt amountUSDC deadline obs hnomatch
  refine ⟨?_, ?_, fun m h => ((hinv m).2 h).1, fun m h => ((hinv m).2 h).2⟩
  · cases hex : (watchRun createdAt amountUSDC deadline obs N).exited with
    | true => simp [watchRun, watchStep, hex]
    | false =>
        rcases (hinv N).1 hex with ⟨_, _⟩
        cases hres : (obs N).result with
        | none => simp [watchRun, watchStep, hex, hres, hN]
        | some txs =>
            by_cases ha : txs.any (txMatch createdAt amountUSDC) = true
            · simp [watchRun, watchStep, hex, hres, ha]
            · simp only [Bool.not_eq_true] at ha
              simp [watchRun, watchStep, hex, hres, ha, hN]
  · intro m
    cases hex : (watchRun createdAt amountUSDC deadline obs m).exited with
    | true => exact le_of_eq ((hinv m).2 hex).1
    | false => exact le_of_eq ((hinv m).1 hex).1 |>.trans (by norm_num)

/-- C6, witness: with every poll failing (transport error) and the first
deadline check already past the deadline, the loop exits after one iteration
with exactly one `paid` write. -/
theorem deposit_watch_timeout_spec_witness :
    (watchRun 0 10 100 (fun _ => { result := none, now := 200 }) 1).exited = true ∧
    (watchRun 0 10 100 (fun _ => { result := none, now := 200 }) 1).paidWrites = 1 := by
  have h := deposit_watch_timeout_spec 0 10 100 (fun _ => { result := none, now := 200 })
    (by intro i txs h; simp at h) 0 (by norm_num)
  exact ⟨h.1, h.2.2.1 1 h.1⟩

theorem getByID_updateStatus (orders : List Order) (id : Nat) (st : OrderStatus)
    (v : ℚ) :
    getByID (updateStatus orders id st v) id =
      (getByID orders id).map fun o => updateStatusRow o st v := by
  induction orders with
  | nil => rfl
  | cons o os ih =>
      by_cases h : o.id = id
      · simp [getByID, updateStatus, List.find?_cons, h, updateStatusRow]
      · simpa [getByID, updateStatus, List.find?_cons, h] using ih

theorem getByID_updatePayoutMetadata (orders : List Order) (id : Nat)
    (a b : String) :
    getByID (updatePayoutMetadata orders id a b) id =
      (getByID orders id).map fun o =>
        { o with payoutRequestID := some a, payoutStatus := b } := by
  induction orders with
  | nil => rfl
  | cons o os ih =>
      by_cases h : o.id = id
      · simp [getByID, updatePayoutMetadata, List.find?_cons, h]
      · simpa [getByID, updatePayoutMetadata, List.find?_cons, h] using ih

/-- `mural.TokenToFiatQuoteResult`, reduced to the estimated fiat amount. -/
structure QuoteResult where
  amount : ℚ
  currencyCode : String
deriving DecidableEq, Repr

/-- The hardcoded fallback conversion rate, `rate := 4000.0`. -/
def fallbackRate : ℚ := 4000

/-- The estimate computed by the quote step of `simulatePaymentLifecycle`: on
quote failure, `amountUSDC * 4000`; on success, the first result's estimated
fiat amount (the Go zero value `0` when the result list is empty). -/
def quoteEstimate (amountUSDC : ℚ) (quote : Except Unit (List QuoteResult)) : ℚ :=
  match quote with
  | .error _ => amountUSDC * fallbackRate
  | .ok results =>
    match results with
    | [] => 0
    | q :: _ => q.amount

/-- The quote step's persistence: `UpdateStatus(id, paid, estimate)` in both
branches. -/
def quotePhase (orders : List Order) (id : Nat) (amountUSDC : ℚ)
    (quote : Except Unit (List QuoteResult)) : List Order :=
  updateStatus orders id .paid (quoteEstimate amountUSDC quote)

/-- C7: after the deposit-watch phase the quote step always issues exactly one
`update-status(paid, estimate)` write for the order, so the order is left
`paid` with a persisted fiat estimate in every case: on quote success the
persisted value is the first returned estimate, and on quote failure it is the
fallback `amount × 4000`. -/
theorem quote_step_persists_estimate (orders : List Order) (id : Nat)
    (amountUSDC : ℚ) (quote : Except Unit (List QuoteResult)) (o : Order)
    (h : getByID orders id = some o) :
    getByID (quotePhase orders id amountUSDC quote) id =
      some (updateStatusRow o .paid (quoteEstimate amountUSDC quote)) ∧
    (updateStatusRow o .paid (quoteEstimate amountUSDC quote)).status = .paid ∧
    (updateStatusRow o .paid (quoteEstimate amountUSDC quote)).amountCOP =
      quoteEstimate amountUSDC quote ∧
    (∀ q rest, quote = .ok (q :: rest) →
      quoteEstimate amountUSDC quote = q.amount) ∧
    (∀ e : Unit, quote = .error e →
      quoteEstimate amountUSDC quote = amountUSDC * 4000) := by
  refine ⟨?_, rfl, rfl, ?_, ?_⟩
  · rw [quotePhase, getByID_updateStatus, h]
    rfl
  · intro q rest hq
    subst hq
    rfl
  · intro e he
    subst he
    rfl

/-- C7, witness: with the order stored, a successful quote persists the first
returned estimate (50000) on the `paid` order, and a failed quote computes the
fallback `10 × 4000 = 40000`. -/
theorem quote_step_persists_estimate_witness :
    getByID (quotePhase [estimatedOrder] 1 10
        (Except.ok [{ amount := 50000, currencyCode := "COP" }])) 1 =
      some { estimatedOrder with status := .paid, amountCOP := 50000 } ∧
    quoteEstimate 10 (Except.error ()) = 40000 := by
  have h := quote_step_persists_estimate [estimatedOrder] 1 10
    (Except.ok [{ amount := 50000, currencyCode := "COP" }]) estimatedOrder rfl
  have h2 := quote_step_persists_estimate [estimatedOrder] 1 10
    (Except.error ()) estimatedOrder rfl
  refine ⟨?_, ?_⟩
  · rw [h.1]
    rfl
  · rw [h2.2.2.2.2 () rfl]
    norm_num

/-- `mural.PayoutRequest`, reduced to the id and status used by the handler. -/
structure PayoutRecord where
  pid : String
  status : String
deriving DecidableEq, Repr

/-- `handleAdminOrderPayout`, GET `/api/admin/orders/{id}/payout`: load the
order; when it has a stored payout-request id, fetch the live payout record
(`fetch`); on retrieval failure only log and return the stored order; on
success refresh the stored payout metadata (when the returned id is a
parseable non-empty UUID) and map a live status of `EXECUTED` to order status
`withdrawn` and `FAILED`/`CANCELED` to `payout_error`. -/
def handleAdminOrderPayout (uuidParseOk : String → Bool) (orders : List Order)
    (id : Nat) (fetch : Except Unit PayoutRecord) :
    HttpStatus × List Order × Option PayoutRecord :=
  match getByID orders id with
  | none => (.notFound, orders, none)
  | some o =>
    match o.payoutRequestID with
    | none => (.ok, orders, none)
    | some _ =>
      match fetch with
      | .error _ => (.ok, orders, none)
      | .ok p =>
        let orders1 :=
          if p.pid ≠ "" ∧ uuidParseOk p.pid then
            updatePayoutMetadata orders id p.pid p.status
          else orders
        let orders2 :=
          if p.status = "EXECUTED" then
            updateStatus orders1 id .withdrawn o.amountCOP
          else if p.status = "FAILED" ∨ p.status = "CANCELED" then
            updateStatus orders1 id .payoutError o.amountCOP
          else orders1
        (.ok, orders2, some p)

theorem getByID_orders1_isSome (u : String → Bool) (orders : List Order)
    (id : Nat) (p : PayoutRecord) (o : Order) (h : getByID orders id = some o) :
    ∃ o1, getByID
        (if p.pid ≠ "" ∧ u p.pid then
          updatePayoutMetadata orders id p.pid p.status
        else orders) id = some o1 := by
  by_cases hu : p.pid ≠ "" ∧ u p.pid
  · rw [if_pos hu, getByID_updatePayoutMetadata, h]
    exact ⟨_, rfl⟩
  · rw [if_neg hu]
    exact ⟨o, h⟩

/-- C8: for every order with a stored payout-request id, the reconciliation
read maps the live provider payout status onto the order: `EXECUTED` forces
order status `withdrawn`, `FAILED` or `CANCELED` forces `payout_error`, and a
failure to retrieve the live payout does not fail the overall read — the
response is still `ok` with the stored order unchanged and no live payload. -/
theorem payout_reconciliation_spec (u : String → Bool) (orders : List Order)
    (id : Nat) (fetch : Except Unit PayoutRecord) (o : Order) (prid : String)
    (h : getByID orders id = some o) (hpr : o.payoutRequestID = some prid) :
    (fetch = .error () → handleAdminOrderPayout u orders id fetch =
      (.ok, orders, none)) ∧
    (∀ p, fetch = .ok p → p.status = "EXECUTED" →
      ∃ o2, getByID (handleAdminOrderPayout u orders id fetch).2.1 id = some o2 ∧
        o2.status = .withdrawn) ∧
    (∀ p, fetch = .ok p → (p.status = "FAILED" ∨ p.status = "CANCELED") →
      ∃ o2, getByID (handleAdminOrderPayout u orders id fetch).2.1 id = some o2 ∧
        o2.status = .payoutError) := by
  refine ⟨?_, ?_, ?_⟩
  · intro hf
    subst hf
    simp [handleAdminOrderPayout, h, hpr]
  · intro p hf hs
    subst hf
    obtain ⟨o1, ho1⟩ := getByID_orders1_isSome u orders id p o h
    simp only [handleAdminOrderPayout, h, hpr]
    rw [if_pos hs, getByID_updateStatus, ho1]
    exact ⟨_, rfl, rfl⟩
  · intro p hf hs
    subst hf
    obtain ⟨o1, ho1⟩ := getByID_orders1_isSome u orders id p o h
    have hne : ¬ p.status = "EXECUTED" := by
      rcases hs with hs | hs <;> rw [hs] <;> decide
    simp only [handleAdminOrderPayout, h, hpr]
    rw [if_neg hne, if_pos hs, getByID_updateStatus, ho1]
    exact ⟨_, rfl, rfl⟩

/-- An order carrying a stored payout-request id, for concrete instances. -/
def payoutOrder : Order :=
  { id := 3, customerName := "Ada", customerEmail := "", items := [],
    amountUSDC := 10, amountCOP := 40000, status := .paid,
    payoutRequestID := some "pr-1", payoutStatus := "AWAITING_EXECUTION",
    createdAt := 100 }

/-- C8, witness: a failed live fetch returns `ok` with the store unchanged and
no live payload; a live status of `EXECUTED` forces the stored order to
`withdrawn`; a live status of `CANCELED` forces it to `payout_error`. -/
theorem payout_reconciliation_spec_witness :
    handleAdminOrderPayout (fun _ => true) [payoutOrder] 3 (Except.error ()) =
      (.ok, [payoutOrder], none) ∧
    (∃ o2, getByID (handleAdminOrderPayout (fun _ => true) [payoutOrder] 3
        (Except.ok { pid := "pr-2", status := "EXECUTED" })).2.1 3 = some o2 ∧
      o2.status = .withdrawn) ∧
    (∃ o2, getByID (handleAdminOrderPayout (fun _ => true) [payoutOrder] 3
        (Except.ok { pid := "pr-2", status := "CANCELED" })).2.1 3 = some o2 ∧
      o2.status = .payoutError) := by
  have h1 := payout_reconciliation_spec (fun _ => true) [payoutOrder] 3
    (Except.error ()) payoutOrder "pr-1" rfl rfl
  have h2 := payout_reconciliation_spec (fun _ => true) [payoutOrder] 3
    (Except.ok { pid := "pr-2", status := "EXECUTED" }) payoutOrder "pr-1" rfl rfl
  have h3 := payout_reconciliation_spec (fun _ => true) [payoutOrder] 3
    (Except.ok { pid := "pr-2", status := "CANCELED" }) payoutOrder "pr-1" rfl rfl
  exact ⟨h1.1 rfl, h2.2.1 _ rfl rfl, h3.2.2 _ rfl (Or.inr rfl)⟩

/-- The decoded body of `handleCreateOrder` (`createOrderRequest`). -/
structure CreateOrderRequest where
  customerName : String
  customerEmail : String
  items : List OrderItem
deriving DecidableEq, Repr

/-- The total computed by `handleCreateOrder`:
`total += it.PriceUSDC * float64(it.Quantity)` over the client-supplied items. -/
def orderTotal (items : List OrderItem) : ℚ :=
  items.foldl (fun acc it => acc + it.priceUSDC * (it.quantity : ℚ)) 0

/-- `handleCreateOrder`, POST `/api/orders`, after JSON decoding: reject an
empty items list with 400; otherwise record a `pending_payment` order whose
`amountUsdc` is the sum of client-supplied unit price times quantity (the
handler never consults the product catalog) and insert it (`newId` and `now`
are the id and `created_at` the store assigns). -/
def handleCreateOrder (req : CreateOrderRequest) (orders : List Order)
    (newId : Nat) (now : Int) : HttpStatus × List Order :=
  if req.items = [] then (.badRequest, orders)
  else
    (.created,
      { id := newId, customerName := req.customerName,
        customerEmail := req.customerEmail, items := req.items,
        amountUSDC := orderTotal req.items, amountCOP := 0,
        status := .pendingPayment, payoutRequestID := none, payoutStatus := "",
        createdAt := now } :: orders)

theorem foldl_add_eq (f : OrderItem → ℚ) (l : List OrderItem) (a : ℚ) :
    l.foldl (fun acc it => acc + f it) a = a + (l.map f).sum := by
  induction l generalizing a with
  | nil => simp
  | cons it its ih => simp [ih, add_assoc]

/-- C9: the create-order handler responds 400 and creates no order when the
items list is empty; for a non-empty items list it creates a `pending_payment`
order whose recorded stable-asset total is exactly the sum over the
client-supplied items of unit price times quantity — for arbitrary
client-supplied prices, with no validation against the server's catalog. -/
theorem create_order_spec (req : CreateOrderRequest) (orders : List Order)
    (newId : Nat) (now : Int) :
    (req.items = [] → handleCreateOrder req orders newId now =
      (.badRequest, orders)) ∧
    (req.items ≠ [] → ∃ o, handleCreateOrder req orders newId now =
      (.created, o :: orders) ∧ o.amountUSDC = orderTotal req.items ∧
      o.status = .pendingPayment ∧ o.items = req.items) ∧
    orderTotal req.items =
      (req.items.map fun it => it.priceUSDC * (it.quantity : ℚ)).sum := by
  refine ⟨?_, ?_, ?_⟩
  · intro h
    simp [handleCreateOrder, h]
  · intro h
    refine ⟨{ id := newId, customerName := req.customerName,
              customerEmail := req.customerEmail, items := req.items,
              amountUSDC := orderTotal req.items, amountCOP := 0,
              status := .pendingPayment, payoutRequestID := none,
              payoutStatus := "", createdAt := now }, ?_, rfl, rfl, rfl⟩
    simp [handleCreateOrder, h]
  · simpa [orderTotal] using foldl_add_eq (fun it => it.priceUSDC * (it.quantity : ℚ))
      req.items 0

/-- A creation request whose single item carries a client-supplied unit price
of 2 USDC, which is not any catalog price. -/
def reqW : CreateOrderRequest :=
  { customerName := "Ada", customerEmail := "",
    items := [{ productID := "starter-kit", name := "Starter Kit",
                priceUSDC := 2, quantity := 3 }] }

/-- C9, witness: an empty items list yields 400 with no order created, and the
non-catalog-priced request records total `2 × 3 = 6`. -/
theorem create_order_spec_witness :
    handleCreateOrder { reqW with items := [] } [] 7 100 = (.badRequest, []) ∧
    (∃ o, handleCreateOrder reqW [] 7 100 = (.created, o :: []) ∧
      o.amountUSDC = orderTotal reqW.items ∧ o.status = .pendingPayment ∧
      o.items = reqW.items) ∧
    orderTotal reqW.items = 6 := by
  have h1 := (create_order_spec { reqW with items := [] } [] 7 100).1 rfl
  have h2 := (create_order_spec reqW [] 7 100).2.1 (by decide)
  exact ⟨h1, h2, by norm_num [orderTotal, reqW]⟩

end MuralDemo
